import Mathlib

/-!
Verification development for the repository Find-All-Solutions-24.

The repository holds two Python files:
  * find_all_solutions.py — estimation (estimateM) and discovery
    (findAllSolutions) phases of the search for all marked elements;
  * quantum_counting.py — the phase-estimation counting variant
    (quantumCounting).

The quantum-circuit construction is embedded as emission of a list of
gates; measurement randomness is embedded by parametrising each routine
over the list of sampled measurement outcomes it would draw, so every
routine becomes a deterministic function of its inputs and its sample
stream.  Python assertion failures and the unbound-name failure in
quantum_counting.py are embedded with an explicit error type.
-/

/-- Failure modes of the Python code: an assertion failure (the
InvalidConfiguration class of errors) and the unbound global name N in
quantumCounting. -/
inductive PyError where
  | invalidConfiguration
  | nameError
deriving DecidableEq, Repr

/-- Gates emitted by addControlledGroverIterator, identified by the qubit
indices they act on. -/
inductive Gate where
  | h (q : ℕ)
  | x (q : ℕ)
  | cz (a b : ℕ)
  | ccx (a b c : ℕ)
  | ccz (a b c : ℕ)
deriving DecidableEq, Repr

/-- The X gates placed on every data qubit whose bit of the answer is 0
(source: the two loops `for bitPosition in range(numDataQubits)` testing
`answerInBinary[numDataQubits - bitPosition - 1] == '0'`, which is bit
`bitPosition` of the answer in LSB order). -/
def xForZeroBits (dataQubitIndices : List ℕ) (answer : ℕ) : List Gate :=
  (List.range dataQubitIndices.length).filterMap fun bitPosition =>
    if answer.testBit bitPosition then none
    else some (Gate.x (dataQubitIndices.getD bitPosition 0))

/-- The ascending CCX chain through the ancilla qubits (source:
`qc.ccx(data[0], data[1], anc[0])` followed by
`for i in range(2, numDataQubits): qc.ccx(data[i], anc[i-2], anc[i-1])`). -/
def ccxChain (dataQubitIndices ancillaQubitIndices : List ℕ) : List Gate :=
  Gate.ccx (dataQubitIndices.getD 0 0) (dataQubitIndices.getD 1 0)
      (ancillaQubitIndices.getD 0 0) ::
    (List.range' 2 (dataQubitIndices.length - 2)).map fun i =>
      Gate.ccx (dataQubitIndices.getD i 0) (ancillaQubitIndices.getD (i - 2) 0)
        (ancillaQubitIndices.getD (i - 1) 0)

/-- The (possibly controlled) sign flip (source: `qc.cz(anc[-1], data[-1])`
when controlQubitIndex is None, else `qc.ccz(control, anc[-1], data[-1])`). -/
def phaseGate (control : Option ℕ) (dataQubitIndices ancillaQubitIndices : List ℕ) :
    List Gate :=
  match control with
  | none => [Gate.cz ((ancillaQubitIndices.getLast?).getD 0)
      ((dataQubitIndices.getLast?).getD 0)]
  | some c => [Gate.ccz c ((ancillaQubitIndices.getLast?).getD 0)
      ((dataQubitIndices.getLast?).getD 0)]

/-- The oracle block for one answer: X gates on the 0-bits, the CCX chain,
the sign flip, the reversed CCX chain, and the X gates again. -/
def oracleForAnswer (control : Option ℕ) (dataQubitIndices ancillaQubitIndices : List ℕ)
    (answer : ℕ) : List Gate :=
  xForZeroBits dataQubitIndices answer ++
    ccxChain dataQubitIndices ancillaQubitIndices ++
    phaseGate control dataQubitIndices ancillaQubitIndices ++
    (ccxChain dataQubitIndices ancillaQubitIndices).reverse ++
    xForZeroBits dataQubitIndices answer

/-- The flip-about-the-mean block (source: H and X on every data qubit, the
CCX chain, the sign flip, the reversed chain, X and H again). -/
def meanFlip (control : Option ℕ) (dataQubitIndices ancillaQubitIndices : List ℕ) :
    List Gate :=
  dataQubitIndices.map Gate.h ++ dataQubitIndices.map Gate.x ++
    ccxChain dataQubitIndices ancillaQubitIndices ++
    phaseGate control dataQubitIndices ancillaQubitIndices ++
    (ccxChain dataQubitIndices ancillaQubitIndices).reverse ++
    dataQubitIndices.map Gate.x ++ dataQubitIndices.map Gate.h

/-- One Grover iteration: the oracle block for each answer in list order,
then the flip about the mean. -/
def groverIteration (control : Option ℕ) (dataQubitIndices ancillaQubitIndices : List ℕ)
    (answers : List ℤ) : List Gate :=
  (answers.map fun a =>
      oracleForAnswer control dataQubitIndices ancillaQubitIndices a.toNat).flatten ++
    meanFlip control dataQubitIndices ancillaQubitIndices

/-- The gates appended by the loop `for _ in range(numIterations)`: Python
range of a negative integer is empty, hence the `Int.toNat`. -/
def groverGates (control : Option ℕ) (dataQubitIndices ancillaQubitIndices : List ℕ)
    (answers : List ℤ) (numIterations : ℤ) : List Gate :=
  (List.replicate numIterations.toNat
      (groverIteration control dataQubitIndices ancillaQubitIndices answers)).flatten

/-- addControlledGroverIterator (identical in both source files): the
assert statements, in source order, then the gate-emission loop.  The
value-level assertions are: at least 2 data qubits, exactly one fewer
ancilla qubit, and every answer within [0, 2^numDataQubits - 1].  The
only check on numIterations in the source is `isinstance(numIterations, int)`;
there is no sign check. -/
def addControlledGroverIterator (control : Option ℕ)
    (dataQubitIndices ancillaQubitIndices : List ℕ) (answers : List ℤ)
    (numIterations : ℤ) : Except PyError (List Gate) :=
  let numDataQubits := dataQubitIndices.length
  if numDataQubits < 2 then .error .invalidConfiguration
  else if ancillaQubitIndices.length ≠ numDataQubits - 1 then
    .error .invalidConfiguration
  else if ¬ (∀ a ∈ answers, 0 ≤ a ∧ a ≤ 2 ^ numDataQubits - 1) then
    .error .invalidConfiguration
  else
    .ok (groverGates control dataQubitIndices ancillaQubitIndices answers numIterations)

/-- dataQubitIndices = [i for i in range(numDataQubits)]. -/
def dataQubits (numDataQubits : ℕ) : List ℕ := List.range numDataQubits

/-- ancillaQubitIndices = [numDataQubits + i for i in range(numAncillaQubits)]
with numAncillaQubits = numDataQubits - 1. -/
def ancillaQubits (numDataQubits : ℕ) : List ℕ :=
  (List.range (numDataQubits - 1)).map (fun i => numDataQubits + i)

/-- numShots = int(math.sqrt(searchSpaceSize) * 10): truncation of a
non-negative real is the floor. -/
noncomputable def estimateMShots (numQubits : ℕ) : ℕ :=
  ⌊Real.sqrt ((2 : ℝ) ^ numQubits) * 10⌋₊

/-- Return value of estimateM, together with the Grover part of the circuit
it builds (the gates added by its addControlledGroverIterator call). -/
structure EstResult where
  Mhat : ℝ
  foundSet : Finset ℕ
  numShots : ℕ
  groverPart : List Gate

/-- estimateM from find_all_solutions.py, parametrised over the list of
measured values (one entry per shot).  numSolutionsSampled is the number of
samples that land in the answers set; answersSetFound is the set of distinct
sampled values that are answers; Mestimated is
searchSpaceSize * asin(sqrt(numSolutionsSampled / numShots))^2 / 9, then
clamped from below by the number of found answers. -/
noncomputable def estimateM (numQubits : ℕ) (answers : List ℕ) (samples : List ℕ) :
    EstResult :=
  let searchSpaceSize : ℕ := 2 ^ numQubits
  let numShots := estimateMShots numQubits
  let answersSet : Finset ℕ := answers.toFinset
  let numSolutionsSampled : ℕ := (samples.filter (fun v => v ∈ answersSet)).length
  let answersSetFound : Finset ℕ := samples.toFinset ∩ answersSet
  let Mestimated : ℝ := (searchSpaceSize : ℝ) *
    Real.arcsin (Real.sqrt ((numSolutionsSampled : ℝ) / (numShots : ℝ))) ^ 2 / 9
  { Mhat := max Mestimated (answersSetFound.card : ℝ)
    foundSet := answersSetFound
    numShots := numShots
    groverPart := groverGates none (dataQubits numQubits) (ancillaQubits numQubits)
      (answers.map fun a => (a : ℤ)) 1 }

/-- Mestimated = int(Mestimated + 0.5) in findAllSolutions: the rounding of
the continuous estimate (truncation of a non-negative real is the floor). -/
noncomputable def mestOf (numQubits : ℕ) (answers : List ℕ) (estSamples : List ℕ) : ℤ :=
  ⌊(estimateM numQubits answers estSamples).Mhat + 1 / 2⌋

/-- numIterations = math.floor(math.sqrt(searchSpaceSize / Mestimated) * math.pi / 4). -/
noncomputable def numIterationsFor (searchSpaceSize : ℕ) (Mestimated : ℤ) : ℕ :=
  ⌊Real.sqrt ((searchSpaceSize : ℝ) / (Mestimated : ℝ)) * Real.pi / 4⌋₊

/-- The spec formula for the amplification-round count, written as the spec
words it: floor((pi/4) * sqrt(spaceSize / Massumed)). -/
noncomputable def numIterationsSpec (spaceSize : ℕ) (Massumed : ℤ) : ℕ :=
  ⌊Real.pi / 4 * Real.sqrt ((spaceSize : ℝ) / (Massumed : ℝ))⌋₊

/-- Default of the probMin parameter of findAllSolutions. -/
noncomputable def defaultProbMin : ℝ := 0.1

/-- The max-fail-count computation of findAllSolutions (both the
initialisation before the loop and the recomputation after a discovery):
probResample = len(answersSetFound) / Mestimated; 10 when probResample == 0,
else ceil(log(probMin) / log(probResample)), with probResample first replaced
by Mestimated / (Mestimated + 1) when probResample == 1.  The Python float
ratio is embedded as the exact rational. -/
noncomputable def stoppingBudgetZ (numFound : ℕ) (Mestimated : ℤ) (probMin : ℝ) : ℤ :=
  let probResample : ℚ := (numFound : ℚ) / (Mestimated : ℚ)
  if probResample = 0 then 10
  else if probResample = 1 then
    ⌈Real.log probMin / Real.log ((Mestimated : ℝ) / ((Mestimated : ℝ) + 1))⌉
  else ⌈Real.log probMin / Real.log ((probResample : ℝ))⌉

/-- Loop state of the discovery phase: the found set, the consecutive-miss
counter numMeasurementsWithNoSolutions, and the current max-fail-count
numMeasurementsWithNoSolutionsMax. -/
structure LoopState where
  found : Finset ℕ
  missCount : ℕ
  budget : ℤ
deriving DecidableEq

/-- One loop body of the discovery phase on a measured value: a new answer
resets the miss counter to 0 and recomputes the budget from the enlarged
found set; any other value increments the miss counter. -/
noncomputable def loopStep (answersSet : Finset ℕ) (Mestimated : ℤ) (probMin : ℝ)
    (s : LoopState) (measuredValue : ℕ) : LoopState :=
  if measuredValue ∈ answersSet ∧ measuredValue ∉ s.found then
    let found := insert measuredValue s.found
    { found := found
      missCount := 0
      budget := stoppingBudgetZ found.card Mestimated probMin }
  else
    { s with missCount := s.missCount + 1 }

/-- The while loop of the discovery phase, parametrised over the stream of
measured values: while missCount < budget, draw the next sample and run the
loop body.  Returns the final state and the unconsumed samples. -/
noncomputable def loopRun (answersSet : Finset ℕ) (Mestimated : ℤ) (probMin : ℝ) :
    LoopState → List ℕ → LoopState × List ℕ
  | s, [] => (s, [])
  | s, v :: rest =>
      if (s.missCount : ℤ) < s.budget then
        loopRun answersSet Mestimated probMin (loopStep answersSet Mestimated probMin s v) rest
      else (s, v :: rest)

/-- Observable outcome of one findAllSolutions run. -/
structure FASResult where
  Mest : ℤ
  foundInit : Finset ℕ
  final : LoopState
  leftover : List ℕ
  ranDiscovery : Bool
  numIterations : ℕ

/-- findAllSolutions from find_all_solutions.py after the answers have been
generated, parametrised over the measurement streams of the two phases:
Step 1 calls estimateM and rounds the estimate; Step 2 runs only when the
rounded estimate is positive, starting from the found set of Step 1 with a
zero miss counter, the budget of stoppingBudgetZ, and
numIterationsFor (2^numQubits) Mestimated amplification rounds per sample. -/
noncomputable def findAllSolutionsRun (numQubits : ℕ) (answers : List ℕ) (probMin : ℝ)
    (estSamples loopSamples : List ℕ) : FASResult :=
  let est := estimateM numQubits answers estSamples
  let Mestimated : ℤ := ⌊est.Mhat + 1 / 2⌋
  if 0 < Mestimated then
    let s0 : LoopState :=
      { found := est.foundSet
        missCount := 0
        budget := stoppingBudgetZ est.foundSet.card Mestimated probMin }
    let run := loopRun answers.toFinset Mestimated probMin s0 loopSamples
    { Mest := Mestimated
      foundInit := est.foundSet
      final := run.1
      leftover := run.2
      ranDiscovery := true
      numIterations := numIterationsFor (2 ^ numQubits) Mestimated }
  else
    { Mest := Mestimated
      foundInit := est.foundSet
      final := { found := est.foundSet, missCount := 0, budget := 0 }
      leftover := loopSamples
      ranDiscovery := false
      numIterations := 0 }

/-- Modelled from the spec: the spec sentence for the Idle-to-Sampling
transition, which is absent from the code.  The assumed remaining count is
round(MhatContinuous) minus the size of the initial found set, clamped to be
non-negative, with 1 substituted whenever the adjusted value is at most 0. -/
noncomputable def discoveryCountSpec (MhatContinuous : ℝ) (numInitialFound : ℕ) : ℤ :=
  let m : ℤ := max (⌊MhatContinuous + 1 / 2⌋ - (numInitialFound : ℤ)) 0
  if m ≤ 0 then 1 else m

/-- numCountingQubits = math.ceil(math.log(math.sqrt(2 ** numQubits) + 1, 2)). -/
noncomputable def numCountingQubits (numQubits : ℕ) : ℕ :=
  ⌈Real.logb 2 (Real.sqrt ((2 : ℝ) ^ numQubits) + 1)⌉₊

/-- The loop of quantumCounting that adds the controlled Grover blocks:
numIterations starts at 1 and doubles after every counting qubit.  Each
entry pairs the control qubit index with the iteration count handed to
addControlledGroverIterator. -/
def countingBlocksAux : List ℕ → ℕ → List (ℕ × ℕ)
  | [], _ => []
  | c :: cs, numIterations => (c, numIterations) :: countingBlocksAux cs (numIterations * 2)

/-- The (control qubit, iteration count) pairs of the counting circuit of
quantumCounting, in the order the blocks are appended. -/
noncomputable def qcBlocks (numQubits : ℕ) : List (ℕ × ℕ) :=
  countingBlocksAux (List.range (numCountingQubits numQubits)) 1

/-- maxkey = max(result, key=result.get): the first distinct outcome whose
multiplicity in the sample list is strictly maximal among those before it. -/
def mostFrequent (outcomes : List ℕ) : ℕ :=
  match outcomes.dedup with
  | [] => 0
  | k :: ks => ks.foldl (fun best k => if outcomes.count k > outcomes.count best then k else best) k

/-- theta = (measuredInt / (2**numCountingQubits)) * math.pi * 2. -/
noncomputable def qcTheta (numCountingQubits y : ℕ) : ℝ :=
  ((y : ℝ) / (2 : ℝ) ^ numCountingQubits) * Real.pi * 2

/-- numTargetsPredicted = searchSpaceSize * (math.sin(theta/2)**2). -/
noncomputable def qcMhat (searchSpaceSize numCountingQubits y : ℕ) : ℝ :=
  (searchSpaceSize : ℝ) * Real.sin (qcTheta numCountingQubits y / 2) ^ 2

/-- error = (math.sqrt(2*numTargetsPredicted*searchSpaceSize)
             + searchSpaceSize/(2**numCountingQubits)) * (2**(1-numCountingQubits)).
The exponent 1 - numCountingQubits is a Python integer, negative once the
counting register has at least 2 qubits. -/
noncomputable def qcError (searchSpaceSize numCountingQubits : ℕ)
    (numTargetsPredicted : ℝ) : ℝ :=
  (Real.sqrt (2 * numTargetsPredicted * (searchSpaceSize : ℝ)) +
      (searchSpaceSize : ℝ) / (2 : ℝ) ^ numCountingQubits) *
    (2 : ℝ) ^ ((1 : ℤ) - (numCountingQubits : ℤ))

/-- quantumCounting from quantum_counting.py, parametrised over the module
global N (None when the module-level driver has not run) and over the list
of counting-register outcomes of the shots.  The circuit-construction
assertions of addControlledGroverIterator guard the call; the min/max lines
then run: minM = max(ceil(Mhat - error), 0.0) and
maxM = min(floor(Mhat + error), N), where N is the module global — looking
it up fails with a NameError when it is absent.  The two are swapped when
minM > maxM. -/
noncomputable def quantumCounting (numQubits : ℕ) (answers : List ℤ)
    (globalN : Option ℤ) (outcomes : List ℕ) : Except PyError (ℕ × ℝ × ℤ × ℤ) :=
  let t := numCountingQubits numQubits
  if 2 ≤ numQubits ∧ ∀ a ∈ answers, 0 ≤ a ∧ a ≤ 2 ^ numQubits - 1 then
    let searchSpaceSize : ℕ := 2 ^ numQubits
    let y := mostFrequent outcomes
    let Mhat := qcMhat searchSpaceSize t y
    let error := qcError searchSpaceSize t Mhat
    let minM : ℤ := max ⌈Mhat - error⌉ 0
    match globalN with
    | none => .error .nameError
    | some N =>
      let maxM : ℤ := min ⌊Mhat + error⌋ N
      if minM > maxM then .ok (t, Mhat, maxM, minM) else .ok (t, Mhat, minM, maxM)
  else .error .invalidConfiguration

lemma loopRun_nil (A : Finset ℕ) (M : ℤ) (pm : ℝ) (s : LoopState) :
    loopRun A M pm s [] = (s, []) := by
  simp [loopRun]

lemma loopRun_cons (A : Finset ℕ) (M : ℤ) (pm : ℝ) (s : LoopState) (v : ℕ) (rest : List ℕ) :
    loopRun A M pm s (v :: rest) =
      if (s.missCount : ℤ) < s.budget then
        loopRun A M pm (loopStep A M pm s v) rest
      else (s, v :: rest) := by
  simp [loopRun]

lemma loopRun_stopped (A : Finset ℕ) (M : ℤ) (pm : ℝ) (s : LoopState) (vs : List ℕ)
    (h : s.budget ≤ (s.missCount : ℤ)) : loopRun A M pm s vs = (s, vs) := by
  cases vs with
  | nil => exact loopRun_nil A M pm s
  | cons v rest => rw [loopRun_cons, if_neg (not_lt.mpr h)]

lemma loopStep_found_mono (A : Finset ℕ) (M : ℤ) (pm : ℝ) (s : LoopState) (v : ℕ) :
    s.found ⊆ (loopStep A M pm s v).found := by
  unfold loopStep
  split
  · exact Finset.subset_insert v s.found
  · exact subset_rfl

lemma loopStep_found_bound (A : Finset ℕ) (M : ℤ) (pm : ℝ) (s : LoopState) (v : ℕ) :
    (loopStep A M pm s v).found ⊆ A ∪ s.found := by
  unfold loopStep
  split
  · next hv =>
      exact Finset.insert_subset (Finset.mem_union_left _ hv.1) Finset.subset_union_right
  · exact Finset.subset_union_right

lemma loopRun_found_mono (A : Finset ℕ) (M : ℤ) (pm : ℝ) (vs : List ℕ) (s : LoopState) :
    s.found ⊆ (loopRun A M pm s vs).1.found := by
  induction vs generalizing s with
  | nil => simp [loopRun_nil]
  | cons v rest ih =>
      rw [loopRun_cons]
      split
      · exact (loopStep_found_mono A M pm s v).trans (ih _)
      · exact subset_rfl

lemma loopRun_found_bound (A : Finset ℕ) (M : ℤ) (pm : ℝ) (vs : List ℕ) (s : LoopState) :
    (loopRun A M pm s vs).1.found ⊆ A ∪ s.found := by
  induction vs generalizing s with
  | nil => simp [loopRun_nil]
  | cons v rest ih =>
      rw [loopRun_cons]
      split
      · exact (ih _).trans
          (Finset.union_subset Finset.subset_union_left (loopStep_found_bound A M pm s v))
      · exact Finset.subset_union_right

lemma loopRun_exit (A : Finset ℕ) (M : ℤ) (pm : ℝ) (vs : List ℕ) (s : LoopState)
    (h : (loopRun A M pm s vs).2 ≠ []) :
    (loopRun A M pm s vs).1.budget ≤ ((loopRun A M pm s vs).1.missCount : ℤ) := by
  induction vs generalizing s with
  | nil => simp [loopRun_nil] at h
  | cons v rest ih =>
      rw [loopRun_cons] at h ⊢
      by_cases hg : (s.missCount : ℤ) < s.budget
      · rw [if_pos hg] at h ⊢
        exact ih _ h
      · rw [if_neg hg]
        exact not_lt.mp hg

lemma estimateM_foundSet_subset (n : ℕ) (ans eS : List ℕ) :
    (estimateM n ans eS).foundSet ⊆ ans.toFinset := by
  simp only [estimateM]
  exact Finset.inter_subset_right

lemma findAllSolutionsRun_of_pos (n : ℕ) (ans : List ℕ) (pm : ℝ) (eS lS : List ℕ)
    (h : 0 < mestOf n ans eS) :
    findAllSolutionsRun n ans pm eS lS =
      { Mest := mestOf n ans eS
        foundInit := (estimateM n ans eS).foundSet
        final := (loopRun ans.toFinset (mestOf n ans eS) pm
          { found := (estimateM n ans eS).foundSet
            missCount := 0
            budget := stoppingBudgetZ (estimateM n ans eS).foundSet.card
              (mestOf n ans eS) pm } lS).1
        leftover := (loopRun ans.toFinset (mestOf n ans eS) pm
          { found := (estimateM n ans eS).foundSet
            missCount := 0
            budget := stoppingBudgetZ (estimateM n ans eS).foundSet.card
              (mestOf n ans eS) pm } lS).2
        ranDiscovery := true
        numIterations := numIterationsFor (2 ^ n) (mestOf n ans eS) } := by
  unfold findAllSolutionsRun
  unfold mestOf at h ⊢
  rw [if_pos h]

lemma findAllSolutionsRun_of_nonpos (n : ℕ) (ans : List ℕ) (pm : ℝ) (eS lS : List ℕ)
    (h : ¬ 0 < mestOf n ans eS) :
    findAllSolutionsRun n ans pm eS lS =
      { Mest := mestOf n ans eS
        foundInit := (estimateM n ans eS).foundSet
        final := { found := (estimateM n ans eS).foundSet, missCount := 0, budget := 0 }
        leftover := lS
        ranDiscovery := false
        numIterations := 0 } := by
  unfold findAllSolutionsRun
  unfold mestOf at h ⊢
  rw [if_neg h]

/-- C10: throughout one discovery run the found set only grows, every element
it gains lies in the ground-truth answers set, and findAllSolutions starts the
discovery loop from the found set returned by estimateM (which itself only
holds answers). -/
theorem C10_foundSet_invariants :
    (∀ (A : Finset ℕ) (M : ℤ) (pm : ℝ) (s : LoopState) (vs : List ℕ),
        s.found ⊆ (loopRun A M pm s vs).1.found ∧
        (loopRun A M pm s vs).1.found ⊆ A ∪ s.found) ∧
    (∀ (n : ℕ) (ans : List ℕ) (pm : ℝ) (eS lS : List ℕ),
        (findAllSolutionsRun n ans pm eS lS).foundInit = (estimateM n ans eS).foundSet ∧
        (findAllSolutionsRun n ans pm eS lS).foundInit ⊆
          (findAllSolutionsRun n ans pm eS lS).final.found ∧
        (findAllSolutionsRun n ans pm eS lS).final.found ⊆ ans.toFinset ∧
        (estimateM n ans eS).foundSet ⊆ ans.toFinset) := by
  constructor
  · intro A M pm s vs
    exact ⟨loopRun_found_mono A M pm vs s, loopRun_found_bound A M pm vs s⟩
  · intro n ans pm eS lS
    by_cases h : 0 < mestOf n ans eS
    · rw [findAllSolutionsRun_of_pos n ans pm eS lS h]
      dsimp only
      refine ⟨rfl,
        loopRun_found_mono ans.toFinset (mestOf n ans eS) pm lS
          { found := (estimateM n ans eS).foundSet
            missCount := 0
            budget := stoppingBudgetZ (estimateM n ans eS).foundSet.card
              (mestOf n ans eS) pm }, ?_, estimateM_foundSet_subset n ans eS⟩
      refine (loopRun_found_bound _ _ _ _ _).trans ?_
      exact Finset.union_subset subset_rfl (estimateM_foundSet_subset n ans eS)
    · rw [findAllSolutionsRun_of_nonpos n ans pm eS lS h]
      dsimp only
      exact ⟨rfl, subset_rfl, estimateM_foundSet_subset n ans eS,
        estimateM_foundSet_subset n ans eS⟩

/-- C9: a sample is drawn only while the consecutive-miss counter is below
the current stopping budget (once the counter has reached the budget the
stream is left untouched and the state is final); a run that stops with
samples left over stops exactly because the counter has reached the budget;
a newly discovered answer resets the counter to 0 while any other sample
increments it. -/
theorem C9_miss_counter_stopping :
    (∀ (A : Finset ℕ) (M : ℤ) (pm : ℝ) (s : LoopState) (vs : List ℕ),
        s.budget ≤ (s.missCount : ℤ) → loopRun A M pm s vs = (s, vs)) ∧
    (∀ (A : Finset ℕ) (M : ℤ) (pm : ℝ) (s : LoopState) (vs : List ℕ),
        (loopRun A M pm s vs).2 ≠ [] →
          (loopRun A M pm s vs).1.budget ≤ ((loopRun A M pm s vs).1.missCount : ℤ)) ∧
    (∀ (A : Finset ℕ) (M : ℤ) (pm : ℝ) (s : LoopState) (v : ℕ),
        (v ∈ A ∧ v ∉ s.found →
          (loopStep A M pm s v).missCount = 0 ∧
          (loopStep A M pm s v).found = insert v s.found) ∧
        (¬ (v ∈ A ∧ v ∉ s.found) →
          (loopStep A M pm s v).missCount = s.missCount + 1 ∧
          (loopStep A M pm s v).found = s.found)) := by
  refine ⟨fun A M pm s vs h => loopRun_stopped A M pm s vs h,
    fun A M pm s vs h => loopRun_exit A M pm vs s h, fun A M pm s v => ⟨?_, ?_⟩⟩
  · intro hv
    simp [loopStep, if_pos hv]
  · intro hv
    simp [loopStep, if_neg hv]

/-- C9 witness: with the counter already at its budget, the loop draws no
further sample. -/
theorem C9_miss_counter_stopping_witness :
    loopRun {1} 1 (1 / 10) { found := ∅, missCount := 5, budget := 3 } [7] =
      ({ found := ∅, missCount := 5, budget := 3 }, [7]) :=
  C9_miss_counter_stopping.1 {1} 1 (1 / 10)
    { found := ∅, missCount := 5, budget := 3 } [7] (by norm_num)

lemma ratio_cast_eq (numFound : ℕ) (M : ℤ) :
    ((((numFound : ℚ) / (M : ℚ)) : ℚ) : ℝ) = (numFound : ℝ) / (M : ℝ) := by
  push_cast
  ring

/-- C4: writing r for the found-over-estimated ratio |FoundSet| / Mestimated,
the budget is the fixed value 10 when r = 0; when r = 1 the ratio is replaced
by Mestimated / (Mestimated + 1) before taking ceil(ln probMin / ln r); in
every other case the budget is ceil(ln probMin / ln r) directly.  The
discovery loop recomputes the budget through exactly this rule after every
new discovery, and the probMin parameter defaults to 0.1. -/
theorem C4_stopping_budget :
    (∀ (numFound : ℕ) (M : ℤ) (pm : ℝ), 0 < M →
      (((numFound : ℝ) / (M : ℝ) = 0) → stoppingBudgetZ numFound M pm = 10) ∧
      (((numFound : ℝ) / (M : ℝ) = 1) →
        stoppingBudgetZ numFound M pm =
          ⌈Real.log pm / Real.log ((M : ℝ) / ((M : ℝ) + 1))⌉) ∧
      (((numFound : ℝ) / (M : ℝ) ≠ 0) → ((numFound : ℝ) / (M : ℝ) ≠ 1) →
        stoppingBudgetZ numFound M pm =
          ⌈Real.log pm / Real.log ((numFound : ℝ) / (M : ℝ))⌉)) ∧
    (∀ (A : Finset ℕ) (M : ℤ) (pm : ℝ) (s : LoopState) (v : ℕ),
      v ∈ A ∧ v ∉ s.found →
        (loopStep A M pm s v).budget = stoppingBudgetZ (insert v s.found).card M pm) ∧
    (∀ (n : ℕ) (ans : List ℕ) (pm : ℝ) (eS lS : List ℕ), 0 < mestOf n ans eS →
        (findAllSolutionsRun n ans pm eS lS).final =
          (loopRun ans.toFinset (mestOf n ans eS) pm
            { found := (estimateM n ans eS).foundSet
              missCount := 0
              budget := stoppingBudgetZ (estimateM n ans eS).foundSet.card
                (mestOf n ans eS) pm } lS).1) ∧
    defaultProbMin = 1 / 10 := by
  refine ⟨?_, ?_, ?_, by norm_num [defaultProbMin]⟩
  · intro numFound M pm _
    have hcast := ratio_cast_eq numFound M
    have h0iff : ((numFound : ℚ) / (M : ℚ) = 0) ↔ ((numFound : ℝ) / (M : ℝ) = 0) := by
      rw [← hcast]
      norm_cast
    have h1iff : ((numFound : ℚ) / (M : ℚ) = 1) ↔ ((numFound : ℝ) / (M : ℝ) = 1) := by
      rw [← hcast]
      norm_cast
    refine ⟨?_, ?_, ?_⟩
    · intro h0
      rw [stoppingBudgetZ, if_pos (h0iff.mpr h0)]
    · intro h1
      have hne0 : ¬ ((numFound : ℚ) / (M : ℚ) = 0) := by
        rw [h1iff.mpr h1]
        norm_num
      rw [stoppingBudgetZ, if_neg hne0, if_pos (h1iff.mpr h1)]
    · intro h0 h1
      rw [stoppingBudgetZ, if_neg (fun hq => h0 (h0iff.mp hq)),
        if_neg (fun hq => h1 (h1iff.mp hq)), hcast]
  · intro A M pm s v hv
    simp [loopStep, if_pos hv]
  · intro n ans pm eS lS h
    rw [findAllSolutionsRun_of_pos n ans pm eS lS h]

/-- C4 witness: an empty found set yields the fixed budget 10. -/
theorem C4_stopping_budget_witness : stoppingBudgetZ 0 3 (1 / 10) = 10 :=
  ((C4_stopping_budget.1 0 3 (1 / 10) (by norm_num)).1 (by norm_num))

/-- C7: the amplification-round count of the discovery loop is
floor(sqrt(spaceSize / Massumed) * pi / 4), which equals the spec formula
floor((pi/4) * sqrt(spaceSize / Massumed)); the run of findAllSolutions uses
exactly that count whenever its discovery phase starts. -/
theorem C7_grover_round_count :
    (∀ (spaceSize : ℕ) (Massumed : ℤ), 1 ≤ Massumed →
      numIterationsFor spaceSize Massumed = numIterationsSpec spaceSize Massumed) ∧
    (∀ (n : ℕ) (ans : List ℕ) (pm : ℝ) (eS lS : List ℕ), 0 < mestOf n ans eS →
      (findAllSolutionsRun n ans pm eS lS).numIterations =
        numIterationsSpec (2 ^ n) (mestOf n ans eS)) := by
  have key : ∀ (spaceSize : ℕ) (Massumed : ℤ),
      numIterationsFor spaceSize Massumed = numIterationsSpec spaceSize Massumed := by
    intro spaceSize Massumed
    unfold numIterationsFor numIterationsSpec
    congr 1
    ring
  refine ⟨fun N M _ => key N M, ?_⟩
  intro n ans pm eS lS h
  rw [findAllSolutionsRun_of_pos n ans pm eS lS h]
  exact key (2 ^ n) (mestOf n ans eS)

/-- C7 witness: the two round-count formulas agree at spaceSize 16,
Massumed 2. -/
theorem C7_grover_round_count_witness :
    numIterationsFor 16 2 = numIterationsSpec 16 2 :=
  C7_grover_round_count.1 16 2 (by norm_num)

lemma estimateM_nil_eval (n : ℕ) (samples : List ℕ) :
    (estimateM n [] samples).Mhat = 0 ∧ (estimateM n [] samples).foundSet = ∅ := by
  constructor
  · simp [estimateM, Real.sqrt_zero, Real.arcsin_zero]
  · simp [estimateM]

lemma mestOf_nil (n : ℕ) (eS : List ℕ) : mestOf n [] eS = 0 := by
  unfold mestOf
  rw [(estimateM_nil_eval n eS).1]
  norm_num

/-- C6: estimateM draws floor(sqrt(spaceSize) * 10) shots, builds its circuit
from a single amplification iteration, reports as found the distinct sampled
answers, sets the continuous estimate to
max(spaceSize * arcsin(sqrt(hits / shots))^2 / 9, |foundSet|), and on an
empty marked set returns estimate 0 and an empty found set whatever the shot
outcomes were. -/
theorem C6_estimateM_definition :
    ∀ (n : ℕ) (ans samples : List ℕ),
      (estimateM n ans samples).numShots = ⌊Real.sqrt ((2 : ℝ) ^ n) * 10⌋₊ ∧
      (estimateM n ans samples).foundSet = samples.toFinset ∩ ans.toFinset ∧
      (estimateM n ans samples).Mhat =
        max (((2 : ℝ) ^ n) * Real.arcsin (Real.sqrt
            (((samples.filter (fun v => v ∈ ans.toFinset)).length : ℝ) /
              ((estimateM n ans samples).numShots : ℝ))) ^ 2 / 9)
          (((estimateM n ans samples).foundSet.card : ℝ)) ∧
      (estimateM n ans samples).groverPart =
        groverIteration none (dataQubits n) (ancillaQubits n)
          (ans.map fun a => (a : ℤ)) ∧
      (ans = [] →
        (estimateM n ans samples).Mhat = 0 ∧ (estimateM n ans samples).foundSet = ∅) := by
  intro n ans samples
  refine ⟨rfl, rfl, ?_, ?_, ?_⟩
  · simp [estimateM, estimateMShots]
  · simp [estimateM, groverGates]
  · rintro rfl
    exact estimateM_nil_eval n samples

/-- C6 witness: the empty marked set yields estimate 0 and an empty found set
on a concrete shot list. -/
theorem C6_estimateM_definition_witness :
    (estimateM 3 [] [0, 5]).Mhat = 0 ∧ (estimateM 3 [] [0, 5]).foundSet = ∅ :=
  (C6_estimateM_definition 3 [] [0, 5]).2.2.2.2 rfl

/-- C1 counterexample: a run whose continuous estimate is 0 (empty answers
set, so estimateM returns Mhat 0 with nothing found).  The spec transition
value is 1 — the substituted non-zero assumed count, with a discovery attempt
mandated — while the code skips the discovery phase entirely. -/
theorem C1_counterexample :
    discoveryCountSpec (estimateM 2 [] []).Mhat (estimateM 2 [] []).foundSet.card = 1 ∧
    (findAllSolutionsRun 2 [] (1 / 10) [] [0]).ranDiscovery = false := by
  constructor
  · rw [discoveryCountSpec, (estimateM_nil_eval 2 []).1, (estimateM_nil_eval 2 []).2]
    norm_num
  · rw [findAllSolutionsRun_of_nonpos 2 [] (1 / 10) [] [0]
      (by rw [mestOf_nil 2 []]; exact lt_irrefl 0)]

/-- C1 amended: the discovery phase assumes Mestimated = round(Mhat) with no
subtraction of the initial found set, and when that rounded value is not
positive the discovery phase is skipped outright — no sample is drawn and no
substitute count 1 is used. -/
theorem C1_amended_discovery_start :
    ∀ (n : ℕ) (ans : List ℕ) (pm : ℝ) (eS lS : List ℕ),
      (findAllSolutionsRun n ans pm eS lS).Mest = ⌊(estimateM n ans eS).Mhat + 1 / 2⌋ ∧
      (0 < mestOf n ans eS → (findAllSolutionsRun n ans pm eS lS).ranDiscovery = true) ∧
      (mestOf n ans eS ≤ 0 →
        (findAllSolutionsRun n ans pm eS lS).ranDiscovery = false ∧
        (findAllSolutionsRun n ans pm eS lS).leftover = lS ∧
        (findAllSolutionsRun n ans pm eS lS).final.found = (estimateM n ans eS).foundSet) := by
  intro n ans pm eS lS
  by_cases h : 0 < mestOf n ans eS
  · rw [findAllSolutionsRun_of_pos n ans pm eS lS h]
    exact ⟨rfl, fun _ => rfl, fun hle => absurd h (not_lt.mpr hle)⟩
  · rw [findAllSolutionsRun_of_nonpos n ans pm eS lS h]
    exact ⟨rfl, fun hpos => absurd hpos h, fun _ => ⟨rfl, rfl, rfl⟩⟩

/-- C1 witness: a run with rounded estimate 0 makes no discovery attempt and
leaves its sample stream untouched. -/
theorem C1_amended_discovery_start_witness :
    (findAllSolutionsRun 2 [] (1 / 10) [] [5]).ranDiscovery = false ∧
    (findAllSolutionsRun 2 [] (1 / 10) [] [5]).leftover = [5] := by
  have h := (C1_amended_discovery_start 2 [] (1 / 10) [] [5]).2.2 (le_of_eq (mestOf_nil 2 []))
  exact ⟨h.1, h.2.1⟩

/-- C5 counterexample: a well-formed configuration handed a negative
iteration count is accepted — addControlledGroverIterator returns the
zero-iteration circuit instead of failing. -/
theorem C5_counterexample :
    addControlledGroverIterator none [0, 1] [2] [0] (-1) = .ok [] ∧ (-1 : ℤ) < 0 :=
  ⟨by rfl, by norm_num⟩


/-- C5 amended: addControlledGroverIterator fails exactly when there are
fewer than 2 data qubits (spaceSize < 4), the ancilla count is not one less
than the data-qubit count, or a marked element lies outside
[0, spaceSize); a negative iterationCount is not rejected — it is silently
treated as zero iterations, emitting no gates. -/
theorem C5_amended_validation :
    ∀ (ctrl : Option ℕ) (data anc : List ℕ) (answers : List ℤ) (it : ℤ),
      ((∃ e, addControlledGroverIterator ctrl data anc answers it = .error e) ↔
        (data.length < 2 ∨ anc.length ≠ data.length - 1 ∨
          ∃ a ∈ answers, a < 0 ∨ (2 : ℤ) ^ data.length - 1 < a)) ∧
      (2 ^ data.length < 4 ↔ data.length < 2) ∧
      (it ≤ 0 →
        ¬ (data.length < 2 ∨ anc.length ≠ data.length - 1 ∨
            ∃ a ∈ answers, a < 0 ∨ (2 : ℤ) ^ data.length - 1 < a) →
        addControlledGroverIterator ctrl data anc answers it = .ok []) := by
  intro ctrl data anc answers it
  have hval : (¬ (∀ a ∈ answers, 0 ≤ a ∧ a ≤ 2 ^ data.length - 1)) ↔
      (∃ a ∈ answers, a < 0 ∨ (2 : ℤ) ^ data.length - 1 < a) := by
    push_neg
    constructor
    · rintro ⟨a, ha, hi⟩
      rcases lt_or_le a 0 with h | h
      · exact ⟨a, ha, Or.inl h⟩
      · exact ⟨a, ha, Or.inr (hi h)⟩
    · rintro ⟨a, ha, hor⟩
      refine ⟨a, ha, fun h0 => ?_⟩
      rcases hor with h | h
      · exact absurd h0 (not_le.mpr h)
      · exact h
  have hunfold : addControlledGroverIterator ctrl data anc answers it =
      if data.length < 2 then .error .invalidConfiguration
      else if anc.length ≠ data.length - 1 then .error .invalidConfiguration
      else if ¬ (∀ a ∈ answers, 0 ≤ a ∧ a ≤ 2 ^ data.length - 1) then
        .error .invalidConfiguration
      else .ok (groverGates ctrl data anc answers it) := rfl
  refine ⟨?_, ⟨?_, ?_⟩, ?_⟩
  · rw [hunfold]
    by_cases h1 : data.length < 2
    · rw [if_pos h1]
      exact ⟨fun _ => Or.inl h1, fun _ => ⟨.invalidConfiguration, rfl⟩⟩
    by_cases h2 : anc.length ≠ data.length - 1
    · rw [if_neg h1, if_pos h2]
      exact ⟨fun _ => Or.inr (Or.inl h2), fun _ => ⟨.invalidConfiguration, rfl⟩⟩
    by_cases h3 : ¬ (∀ a ∈ answers, 0 ≤ a ∧ a ≤ 2 ^ data.length - 1)
    · rw [if_neg h1, if_neg h2, if_pos h3]
      exact ⟨fun _ => Or.inr (Or.inr (hval.mp h3)), fun _ => ⟨.invalidConfiguration, rfl⟩⟩
    · rw [if_neg h1, if_neg h2, if_neg h3]
      constructor
      · rintro ⟨e, he⟩
        simp at he
      · rintro (h | h | h)
        · exact absurd h h1
        · exact absurd h h2
        · exact absurd (hval.mpr h) h3
  · intro h
    by_contra hk
    push_neg at hk
    have h4 : (4 : ℕ) ≤ 2 ^ data.length := by
      calc (4 : ℕ) = 2 ^ 2 := by norm_num
      _ ≤ 2 ^ data.length := Nat.pow_le_pow_right (by norm_num) hk
    omega
  · intro h
    have hd : data.length = 0 ∨ data.length = 1 := by omega
    rcases hd with h | h <;> rw [h] <;> norm_num
  · intro hit hnone
    push_neg at hnone
    obtain ⟨g1, g2, g3⟩ := hnone
    have hgates : groverGates ctrl data anc answers it = [] := by
      unfold groverGates
      rw [Int.toNat_of_nonpos hit]
      rfl
    rw [hunfold, if_neg (not_lt.mpr g1), if_neg (fun hc => hc g2),
      if_neg (not_not_intro g3), hgates]

/-- C5 witness: the amended rule applied to a valid configuration with a
negative iteration count yields the empty circuit without an error. -/
theorem C5_amended_validation_witness :
    addControlledGroverIterator none [0, 1] [2] [] (-3) = .ok [] :=
  (C5_amended_validation none [0, 1] [2] [] (-3)).2.2 (by norm_num) (by simp)

/-- clamp(x, lo, hi) as the spec words it. -/
def clampZ (x lo hi : ℤ) : ℤ := min (max x lo) hi

lemma quantumCounting_valid_none (n : ℕ) (answers : List ℤ) (outcomes : List ℕ)
    (h : 2 ≤ n ∧ ∀ a ∈ answers, 0 ≤ a ∧ a ≤ 2 ^ n - 1) :
    quantumCounting n answers none outcomes = .error .nameError := by
  simp only [quantumCounting]
  rw [if_pos h]

lemma quantumCounting_valid_some (n : ℕ) (answers : List ℤ) (outcomes : List ℕ) (Ng : ℤ)
    (h : 2 ≤ n ∧ ∀ a ∈ answers, 0 ≤ a ∧ a ≤ 2 ^ n - 1) :
    quantumCounting n answers (some Ng) outcomes =
      if min ⌊qcMhat (2 ^ n) (numCountingQubits n) (mostFrequent outcomes) +
            qcError (2 ^ n) (numCountingQubits n)
              (qcMhat (2 ^ n) (numCountingQubits n) (mostFrequent outcomes))⌋ Ng <
          max ⌈qcMhat (2 ^ n) (numCountingQubits n) (mostFrequent outcomes) -
            qcError (2 ^ n) (numCountingQubits n)
              (qcMhat (2 ^ n) (numCountingQubits n) (mostFrequent outcomes))⌉ 0 then
        .ok (numCountingQubits n,
          qcMhat (2 ^ n) (numCountingQubits n) (mostFrequent outcomes),
          min ⌊qcMhat (2 ^ n) (numCountingQubits n) (mostFrequent outcomes) +
            qcError (2 ^ n) (numCountingQubits n)
              (qcMhat (2 ^ n) (numCountingQubits n) (mostFrequent outcomes))⌋ Ng,
          max ⌈qcMhat (2 ^ n) (numCountingQubits n) (mostFrequent outcomes) -
            qcError (2 ^ n) (numCountingQubits n)
              (qcMhat (2 ^ n) (numCountingQubits n) (mostFrequent outcomes))⌉ 0)
      else
        .ok (numCountingQubits n,
          qcMhat (2 ^ n) (numCountingQubits n) (mostFrequent outcomes),
          max ⌈qcMhat (2 ^ n) (numCountingQubits n) (mostFrequent outcomes) -
            qcError (2 ^ n) (numCountingQubits n)
              (qcMhat (2 ^ n) (numCountingQubits n) (mostFrequent outcomes))⌉ 0,
          min ⌊qcMhat (2 ^ n) (numCountingQubits n) (mostFrequent outcomes) +
            qcError (2 ^ n) (numCountingQubits n)
              (qcMhat (2 ^ n) (numCountingQubits n) (mostFrequent outcomes))⌋ Ng) := by
  simp only [quantumCounting]
  rw [if_pos h]

lemma qcMhat_nonneg (N t y : ℕ) : 0 ≤ qcMhat N t y :=
  mul_nonneg (Nat.cast_nonneg N) (sq_nonneg _)

lemma qcMhat_le_spaceSize (N t y : ℕ) : qcMhat N t y ≤ (N : ℝ) := by
  have h := Real.sin_sq_le_one (qcTheta t y / 2)
  calc qcMhat N t y = (N : ℝ) * Real.sin (qcTheta t y / 2) ^ 2 := rfl
  _ ≤ (N : ℝ) * 1 := mul_le_mul_of_nonneg_left h (Nat.cast_nonneg N)
  _ = (N : ℝ) := mul_one _

lemma qcError_nonneg (N t : ℕ) (Mh : ℝ) (_ : 0 ≤ Mh) : 0 ≤ qcError N t Mh := by
  unfold qcError
  apply mul_nonneg
  · exact add_nonneg (Real.sqrt_nonneg _)
      (div_nonneg (Nat.cast_nonneg N) (by positivity))
  · positivity

/-- C2: on the only module state the repository ever runs quantumCounting in
(the driver sets the global N to 2^numQubits before the call), the returned
integer bounds satisfy Mmin ≤ Mmax, both lie in [0, spaceSize], and they
arise from clamp(ceil(Mhat − ε), 0, spaceSize) and
clamp(floor(Mhat + ε), 0, spaceSize), swapped when the former exceeds the
latter. -/
theorem C2_count_estimate_invariant :
    ∀ (n : ℕ) (answers : List ℤ) (outcomes : List ℕ),
      2 ≤ n → (∀ a ∈ answers, 0 ≤ a ∧ a ≤ 2 ^ n - 1) →
      ∃ (mn mx : ℤ) (Mh e : ℝ),
        Mh = qcMhat (2 ^ n) (numCountingQubits n) (mostFrequent outcomes) ∧
        e = qcError (2 ^ n) (numCountingQubits n) Mh ∧
        quantumCounting n answers (some ((2 : ℤ) ^ n)) outcomes =
          .ok (numCountingQubits n, Mh, mn, mx) ∧
        mn ≤ mx ∧ 0 ≤ mn ∧ mn ≤ (2 : ℤ) ^ n ∧ 0 ≤ mx ∧ mx ≤ (2 : ℤ) ^ n ∧
        (mn, mx) =
          (if clampZ ⌊Mh + e⌋ 0 ((2 : ℤ) ^ n) < clampZ ⌈Mh - e⌉ 0 ((2 : ℤ) ^ n) then
            (clampZ ⌊Mh + e⌋ 0 ((2 : ℤ) ^ n), clampZ ⌈Mh - e⌉ 0 ((2 : ℤ) ^ n))
          else
            (clampZ ⌈Mh - e⌉ 0 ((2 : ℤ) ^ n), clampZ ⌊Mh + e⌋ 0 ((2 : ℤ) ^ n))) := by
  intro n answers outcomes hn hans
  rw [quantumCounting_valid_some n answers outcomes ((2 : ℤ) ^ n) ⟨hn, hans⟩]
  set Mh := qcMhat (2 ^ n) (numCountingQubits n) (mostFrequent outcomes) with hMh
  set e := qcError (2 ^ n) (numCountingQubits n) Mh with hE
  have hM0 : 0 ≤ Mh := qcMhat_nonneg _ _ _
  have hMle : Mh ≤ ((2 ^ n : ℕ) : ℝ) := qcMhat_le_spaceSize _ _ _
  have he0 : 0 ≤ e := qcError_nonneg _ _ _ hM0
  have hfl0 : (0 : ℤ) ≤ ⌊Mh + e⌋ := Int.le_floor.mpr (by simpa using add_nonneg hM0 he0)
  have hcl : ⌈Mh - e⌉ ≤ (2 : ℤ) ^ n := by
    rw [Int.ceil_le]
    push_cast
    push_cast at hMle
    linarith
  have hmaxle : max ⌈Mh - e⌉ 0 ≤ (2 : ℤ) ^ n := max_le hcl (by positivity)
  have hlo : clampZ ⌈Mh - e⌉ 0 ((2 : ℤ) ^ n) = max ⌈Mh - e⌉ 0 := min_eq_left hmaxle
  have hhi : clampZ ⌊Mh + e⌋ 0 ((2 : ℤ) ^ n) = min ⌊Mh + e⌋ ((2 : ℤ) ^ n) := by
    unfold clampZ
    rw [max_eq_left hfl0]
  have hmin0 : (0 : ℤ) ≤ max ⌈Mh - e⌉ 0 := le_max_right _ _
  have hmax0 : (0 : ℤ) ≤ min ⌊Mh + e⌋ ((2 : ℤ) ^ n) := le_min hfl0 (by positivity)
  have hmaxle2 : min ⌊Mh + e⌋ ((2 : ℤ) ^ n) ≤ (2 : ℤ) ^ n := min_le_right _ _
  by_cases hs : min ⌊Mh + e⌋ ((2 : ℤ) ^ n) < max ⌈Mh - e⌉ 0
  · rw [if_pos hs]
    refine ⟨min ⌊Mh + e⌋ ((2 : ℤ) ^ n), max ⌈Mh - e⌉ 0, Mh, e, rfl, rfl, rfl,
      le_of_lt hs, hmax0, hmaxle2, hmin0, hmaxle, ?_⟩
    rw [hlo, hhi, if_pos hs]
  · rw [if_neg hs]
    refine ⟨max ⌈Mh - e⌉ 0, min ⌊Mh + e⌋ ((2 : ℤ) ^ n), Mh, e, rfl, rfl, rfl,
      not_lt.mp hs, hmin0, hmaxle, hmax0, hmaxle2, ?_⟩
    rw [hlo, hhi, if_neg hs]

/-- C2 witness: the invariant instantiated on a concrete valid call. -/
theorem C2_count_estimate_invariant_witness :
    ∃ (mn mx : ℤ) (Mh e : ℝ),
      Mh = qcMhat (2 ^ 2) (numCountingQubits 2) (mostFrequent [0]) ∧
      e = qcError (2 ^ 2) (numCountingQubits 2) Mh ∧
      quantumCounting 2 [] (some ((2 : ℤ) ^ 2)) [0] =
        .ok (numCountingQubits 2, Mh, mn, mx) ∧
      mn ≤ mx ∧ 0 ≤ mn ∧ mn ≤ (2 : ℤ) ^ 2 ∧ 0 ≤ mx ∧ mx ≤ (2 : ℤ) ^ 2 ∧
      (mn, mx) =
        (if clampZ ⌊Mh + e⌋ 0 ((2 : ℤ) ^ 2) < clampZ ⌈Mh - e⌉ 0 ((2 : ℤ) ^ 2) then
          (clampZ ⌊Mh + e⌋ 0 ((2 : ℤ) ^ 2), clampZ ⌈Mh - e⌉ 0 ((2 : ℤ) ^ 2))
        else
          (clampZ ⌈Mh - e⌉ 0 ((2 : ℤ) ^ 2), clampZ ⌊Mh + e⌋ 0 ((2 : ℤ) ^ 2))) :=
  C2_count_estimate_invariant 2 [] [0] (by norm_num) (by simp)

/-- C3: quantumCounting reads the name N in its upper-bound line although
the function never defines it — without the module-level N of the driver
every valid call fails with a NameError before returning; and when a global
N does exist, the upper clamp follows that global rather than 2^numQubits,
so two different globals produce different results on the same call. -/
theorem C3_unbound_global_N :
    (∀ (n : ℕ) (answers : List ℤ) (outcomes : List ℕ),
        2 ≤ n → (∀ a ∈ answers, 0 ≤ a ∧ a ≤ 2 ^ n - 1) →
        quantumCounting n answers none outcomes = .error .nameError) ∧
    quantumCounting 2 [] (some (-1)) [0] ≠
      quantumCounting 2 [] (some ((2 : ℤ) ^ 2)) [0] := by
  constructor
  · intro n answers outcomes hn hans
    exact quantumCounting_valid_none n answers outcomes ⟨hn, hans⟩
  · intro heq
    rw [quantumCounting_valid_some 2 [] [0] (-1) ⟨le_refl 2, by simp⟩,
      quantumCounting_valid_some 2 [] [0] ((2 : ℤ) ^ 2) ⟨le_refl 2, by simp⟩] at heq
    set Mh := qcMhat (2 ^ 2) (numCountingQubits 2) (mostFrequent [0]) with hMh
    set e := qcError (2 ^ 2) (numCountingQubits 2) Mh with hE
    have hM0 : 0 ≤ Mh := qcMhat_nonneg _ _ _
    have he0 : 0 ≤ e := qcError_nonneg _ _ _ hM0
    have hfl0 : (0 : ℤ) ≤ ⌊Mh + e⌋ := Int.le_floor.mpr (by simpa using add_nonneg hM0 he0)
    have hmin0 : (0 : ℤ) ≤ max ⌈Mh - e⌉ 0 := le_max_right _ _
    have hneg : min ⌊Mh + e⌋ (-1 : ℤ) ≤ -1 := min_le_right _ _
    have h1 : min ⌊Mh + e⌋ (-1 : ℤ) < max ⌈Mh - e⌉ 0 := by omega
    rw [if_pos h1] at heq
    by_cases h2 : min ⌊Mh + e⌋ ((2 : ℤ) ^ 2) < max ⌈Mh - e⌉ 0
    · rw [if_pos h2] at heq
      simp only [Except.ok.injEq, Prod.mk.injEq] at heq
      have h3 := heq.2.2.1
      have h4 : (0 : ℤ) ≤ min ⌊Mh + e⌋ ((2 : ℤ) ^ 2) := le_min hfl0 (by norm_num)
      omega
    · rw [if_neg h2] at heq
      simp only [Except.ok.injEq, Prod.mk.injEq] at heq
      have h3 := heq.2.2.1
      omega

/-- C3 witness: a concrete valid call without the driver global fails with
the NameError. -/
theorem C3_unbound_global_N_witness :
    quantumCounting 2 [] none [0] = .error .nameError :=
  C3_unbound_global_N.1 2 [] [0] (by norm_num) (by simp)

lemma countingBlocksAux_range (k a it : ℕ) :
    countingBlocksAux (List.range' a k) it =
      (List.range k).map fun j => (a + j, it * 2 ^ j) := by
  induction k generalizing a it with
  | zero => simp [countingBlocksAux]
  | succ k ih =>
      rw [List.range'_succ]
      show (a, it) :: countingBlocksAux (List.range' (a + 1) k) (it * 2) = _
      rw [ih (a + 1) (it * 2), List.range_succ_eq_map, List.map_cons, List.map_map]
      have hfun : ((fun j => (a + j, it * 2 ^ j)) ∘ Nat.succ) =
          fun j => (a + 1 + j, it * 2 * 2 ^ j) := by
        funext j
        show (a + (j + 1), it * 2 ^ (j + 1)) = (a + 1 + j, it * 2 * 2 ^ j)
        congr 1
        · omega
        · rw [pow_succ]
          ring
      rw [hfun]
      congr 1
      simp

/-- C8: the counting register is ceil(log2(sqrt(spaceSize) + 1)) qubits
wide; counting bit j controls an amplification block of 2^j rounds; the
point estimate from the most frequent counting outcome y is
spaceSize * sin(pi * y / 2^t)^2 (theta = 2 pi y / 2^t), and the error bound
is (sqrt(2 * Mhat * spaceSize) + spaceSize / 2^t) * 2^(1 - t). -/
theorem C8_counting_estimator_shape :
    ∀ (n : ℕ) (outcomes : List ℕ),
      numCountingQubits n = ⌈Real.logb 2 (Real.sqrt ((2 : ℝ) ^ n) + 1)⌉₊ ∧
      qcBlocks n = (List.range (numCountingQubits n)).map (fun j => (j, 2 ^ j)) ∧
      qcMhat (2 ^ n) (numCountingQubits n) (mostFrequent outcomes) =
        (2 : ℝ) ^ n * Real.sin (Real.pi * (mostFrequent outcomes : ℝ) /
          (2 : ℝ) ^ numCountingQubits n) ^ 2 ∧
      qcError (2 ^ n) (numCountingQubits n)
          (qcMhat (2 ^ n) (numCountingQubits n) (mostFrequent outcomes)) =
        (Real.sqrt (2 * qcMhat (2 ^ n) (numCountingQubits n) (mostFrequent outcomes) *
            (2 : ℝ) ^ n) + (2 : ℝ) ^ n / (2 : ℝ) ^ numCountingQubits n) *
          (2 : ℝ) ^ ((1 : ℤ) - (numCountingQubits n : ℤ)) := by
  intro n outcomes
  have harg : qcTheta (numCountingQubits n) (mostFrequent outcomes) / 2 =
      Real.pi * (mostFrequent outcomes : ℝ) / (2 : ℝ) ^ numCountingQubits n := by
    unfold qcTheta
    ring
  refine ⟨rfl, ?_, ?_, ?_⟩
  · have h := countingBlocksAux_range (numCountingQubits n) 0 1
    rw [← List.range_eq_range'] at h
    rw [qcBlocks, h]
    simp
  · unfold qcMhat
    rw [harg]
    push_cast
    rfl
  · unfold qcError
    push_cast
    rfl
